import Mathlib

/-!
Verification of the branch recency resolver and safe-switch workflow of the
recent-branches tool (Go sources: git.go, main.go, modal.go).

The effectful Go code shells out to git; we model the repository through a
`GitWorld` record holding the result of every git invocation the code can
issue (the Process Runner oracle), and translate each Go function into a pure
Lean function over that record.  Machine integers are modelled as `Int`/`Nat`
(no overflow is relevant here), `time.Time` values as unix seconds (`Int`),
and fallible calls as `Except String`.  All definitions are structurally
recursive (list fuel where needed) so that concrete runs reduce inside the
kernel.

The Go `strings` helpers used by the sources are reimplemented below with
`go` prefixes; each mirrors the corresponding Go function on the inputs the
tool feeds it (ASCII git output).
-/

/-- Characters trimmed by Go strings.TrimSpace (unicode.IsSpace): space, tab,
newline, vertical tab, form feed, carriage return, NEL and NBSP. -/
def isGoSpace (c : Char) : Bool :=
  c = ' ' || c = '\t' || c = '\n' || c = '\x0b' || c = '\x0c' || c = '\r' ||
  c = Char.ofNat 0x85 || c = Char.ofNat 0xa0

/-- strings.TrimSpace on the character list. -/
def goTrimSpaceL (s : List Char) : List Char :=
  ((s.dropWhile isGoSpace).reverse.dropWhile isGoSpace).reverse

/-- Go strings.TrimSpace. -/
def goTrimSpace (s : String) : String :=
  ⟨goTrimSpaceL s.data⟩

/-- Fuel-driven splitting by a non-empty separator, leftmost-first and
non-overlapping, exactly as Go strings.Split.  The fuel starts at the input
length, which bounds the number of steps. -/
def goSplitAux (sep : List Char) : Nat → List Char → List Char → List (List Char)
  | _, [], acc => [acc.reverse]
  | 0, s, acc => [acc.reverse ++ s]
  | fuel + 1, c :: rest, acc =>
    if sep.isPrefixOf (c :: rest) then
      acc.reverse :: goSplitAux sep fuel (List.drop sep.length (c :: rest)) []
    else
      goSplitAux sep fuel rest (c :: acc)

/-- Go strings.Split (for the non-empty separators the sources use). -/
def goSplit (s sep : String) : List String :=
  (goSplitAux sep.data s.data.length s.data []).map (fun l => ⟨l⟩)

/-- Go strings.SplitN with n > 0: at most n pieces, the last piece holding
the unsplit remainder. -/
def goSplitN (s sep : String) (n : Nat) : List String :=
  let parts := goSplit s sep
  if parts.length ≤ n then parts
  else parts.take (n - 1) ++ [String.intercalate sep (parts.drop (n - 1))]

/-- Substring containment on character lists (Go strings.Contains). -/
def listContains (s sub : List Char) : Bool :=
  if sub.isPrefixOf s then true
  else
    match s with
    | [] => false
    | _ :: rest => listContains rest sub

/-- Go strings.Contains. -/
def goContains (s sub : String) : Bool :=
  listContains s.data sub.data

/-- Go strings.HasPrefix. -/
def goStartsWith (s pre : String) : Bool :=
  pre.data.isPrefixOf s.data

/-- Go strings.HasSuffix. -/
def goEndsWith (s suf : String) : Bool :=
  suf.data.isSuffixOf s.data

/-- Go strings.TrimPrefix. -/
def goDropPre (s pre : String) : String :=
  if goStartsWith s pre then ⟨s.data.drop pre.data.length⟩ else s

/-- Go strings.TrimSuffix. -/
def goDropSuf (s suf : String) : String :=
  if goEndsWith s suf then ⟨s.data.take (s.data.length - suf.data.length)⟩ else s

/-- Go strings.ToLower (ASCII, which covers git author fields as the tool
compares them). -/
def goToLower (s : String) : String :=
  ⟨s.data.map Char.toLower⟩

/-! ### Go time.Parse for the layouts appearing in the sources

`parseGitDate` tries the four layouts
"2006-01-02T15:04:05-07:00", "2006-01-02T15:04:05Z",
"2006-01-02T15:04:05+00:00", "2006-01-02 15:04:05 -0700".
In Go layout syntax: "2006" is a fixed 4-digit year, "01"/"02"/"04"/"05" are
fixed 2-digit month/day/minute/second, "15" is a 1-or-2-digit hour,
"-07:00"/"-0700" are signed numeric zone offsets, and a bare "Z" or "+00:00"
is a literal.  `parseTimestamp` uses the layout "1136239445", which Go reads
as the chunk sequence month, month, hour12, literal 6, day, hour12,
literal 9, minute, minute, second — so a 10-digit unix timestamp never
parses and the reflog recency data is in fact always discarded.
Successful parses are converted to unix seconds via the standard
days-from-civil computation. -/

def isDigitChar (c : Char) : Bool :=
  '0' ≤ c && c ≤ '9'

def digitVal (c : Char) : Nat :=
  c.toNat - '0'.toNat

/-- Fixed 2-digit number (Go getnum with fixed=true on a "01"-style chunk). -/
def num2F : List Char → Option (Nat × List Char)
  | a :: b :: rest =>
    if isDigitChar a && isDigitChar b then some (digitVal a * 10 + digitVal b, rest) else none
  | _ => none

/-- Fixed 4-digit number (Go "2006" year chunk). -/
def num4F : List Char → Option (Nat × List Char)
  | a :: b :: c :: d :: rest =>
    if isDigitChar a && isDigitChar b && isDigitChar c && isDigitChar d then
      some (digitVal a * 1000 + digitVal b * 100 + digitVal c * 10 + digitVal d, rest)
    else none
  | _ => none

/-- One-or-two digit number (Go getnum with fixed=false: takes a second digit
exactly when one follows). -/
def numNF : List Char → Option (Nat × List Char)
  | [] => none
  | a :: rest =>
    if isDigitChar a then
      match rest with
      | b :: rest2 => if isDigitChar b then some (digitVal a * 10 + digitVal b, rest2) else some (digitVal a, rest)
      | [] => some (digitVal a, [])
    else none

/-- Consume one expected literal character. -/
def litC (c : Char) : List Char → Option (List Char)
  | x :: rest => if x = c then some rest else none
  | [] => none

/-- Consume a list of expected literal characters. -/
def litL : List Char → List Char → Option (List Char)
  | [], s => some s
  | c :: cs, s => (litC c s).bind (litL cs)

/-- Signed zone offset of the form +hh:mm / -hh:mm (Go "-07:00" chunk),
returned in seconds. -/
def colonTZ : List Char → Option (Int × List Char)
  | c :: rest =>
    if c = '+' || c = '-' then
      (num2F rest).bind fun (h, rest1) =>
        (litC ':' rest1).bind fun rest2 =>
          (num2F rest2).map fun (m, rest3) =>
            (if c = '-' then -(h * 3600 + m * 60 : Int) else (h * 3600 + m * 60 : Int), rest3)
    else none
  | [] => none

/-- Signed zone offset of the form +hhmm / -hhmm (Go "-0700" chunk),
returned in seconds. -/
def numTZ : List Char → Option (Int × List Char)
  | c :: rest =>
    if c = '+' || c = '-' then
      (num2F rest).bind fun (h, rest1) =>
        (num2F rest1).map fun (m, rest2) =>
          (if c = '-' then -(h * 3600 + m * 60 : Int) else (h * 3600 + m * 60 : Int), rest2)
    else none
  | [] => none

/-- Proleptic-Gregorian leap year. -/
def isLeap (y : Int) : Bool :=
  y % 4 = 0 && (y % 100 ≠ 0 || y % 400 = 0)

/-- Days in a month (Go time.daysIn). -/
def daysIn (m : Nat) (y : Int) : Nat :=
  match m with
  | 1 => 31
  | 2 => if isLeap y then 29 else 28
  | 3 => 31
  | 4 => 30
  | 5 => 31
  | 6 => 30
  | 7 => 31
  | 8 => 31
  | 9 => 30
  | 10 => 31
  | 11 => 30
  | 12 => 31
  | _ => 0

/-- Days since 1970-01-01 of a civil date (standard days-from-civil
computation; all intermediate divisions are on non-negative values, matching
truncating division). -/
def daysFromCivil (y : Int) (m d : Nat) : Int :=
  let y2 : Int := if m ≤ 2 then y - 1 else y
  let era : Int := (if 0 ≤ y2 then y2 else y2 - 399) / 400
  let yoe : Int := y2 - era * 400
  let mp : Int := (m : Int) + (if 2 < m then -3 else 9)
  let doy : Int := (153 * mp + 2) / 5 + (d : Int) - 1
  let doe : Int := yoe * 365 + yoe / 4 - yoe / 100 + doy
  era * 146097 + doe - 719468

/-- Unix seconds of civil date-time components at a given zone offset. -/
def civilToUnix (y : Int) (m d h mi s : Nat) (offset : Int) : Int :=
  daysFromCivil y m d * 86400 + (h : Int) * 3600 + (mi : Int) * 60 + (s : Int) - offset

/-- Range validation performed by Go time.Parse on date-time components
(hour on a 24-hour "15" chunk). -/
def validCivil (y : Int) (m d h mi s : Nat) : Bool :=
  1 ≤ m && m ≤ 12 && 1 ≤ d && d ≤ daysIn m y && h ≤ 23 && mi ≤ 59 && s ≤ 59

/-- Shared date-time prefix "2006-01-02<mid>15:04:05" of the four layouts,
where <mid> is "T" or a space. -/
def parseCivilPrefix (mid : Char) (s : List Char) :
    Option (Nat × Nat × Nat × Nat × Nat × Nat × List Char) :=
  (num4F s).bind fun (y, s1) =>
    (litC '-' s1).bind fun s2 =>
      (num2F s2).bind fun (mo, s3) =>
        (litC '-' s3).bind fun s4 =>
          (num2F s4).bind fun (d, s5) =>
            (litC mid s5).bind fun s6 =>
              (numNF s6).bind fun (h, s7) =>
                (litC ':' s7).bind fun s8 =>
                  (num2F s8).bind fun (mi, s9) =>
                    (litC ':' s9).bind fun s10 =>
                      (num2F s10).map fun (sec, s11) =>
                        (y, mo, d, h, mi, sec, s11)

/-- Layout "2006-01-02T15:04:05-07:00". -/
def parseLayoutISOColon (s : List Char) : Option Int :=
  (parseCivilPrefix 'T' s).bind fun (y, mo, d, h, mi, sec, rest) =>
    (colonTZ rest).bind fun (off, rest2) =>
      if rest2 = [] && validCivil (y : Int) mo d h mi sec then
        some (civilToUnix (y : Int) mo d h mi sec off)
      else none

/-- Layout "2006-01-02T15:04:05Z" (bare Z is a literal in Go layout syntax;
no zone information, so UTC). -/
def parseLayoutZ (s : List Char) : Option Int :=
  (parseCivilPrefix 'T' s).bind fun (y, mo, d, h, mi, sec, rest) =>
    (litC 'Z' rest).bind fun rest2 =>
      if rest2 = [] && validCivil (y : Int) mo d h mi sec then
        some (civilToUnix (y : Int) mo d h mi sec 0)
      else none

/-- Layout "2006-01-02T15:04:05+00:00" ("+00:00" is a literal in Go layout
syntax, not a zone chunk; UTC). -/
def parseLayoutPlusZero (s : List Char) : Option Int :=
  (parseCivilPrefix 'T' s).bind fun (y, mo, d, h, mi, sec, rest) =>
    (litL ['+', '0', '0', ':', '0', '0'] rest).bind fun rest2 =>
      if rest2 = [] && validCivil (y : Int) mo d h mi sec then
        some (civilToUnix (y : Int) mo d h mi sec 0)
      else none

/-- Layout "2006-01-02 15:04:05 -0700". -/
def parseLayoutNumTZ (s : List Char) : Option Int :=
  (parseCivilPrefix ' ' s).bind fun (y, mo, d, h, mi, sec, rest) =>
    (litC ' ' rest).bind fun rest1 =>
      (numTZ rest1).bind fun (off, rest2) =>
        if rest2 = [] && validCivil (y : Int) mo d h mi sec then
          some (civilToUnix (y : Int) mo d h mi sec off)
        else none

/-- git.go parseGitDate: try the four layouts in order, unix seconds on
success. -/
def parseGitDate (dateStr : String) : Except Unit Int :=
  match parseLayoutISOColon dateStr.data with
  | some t => .ok t
  | none =>
    match parseLayoutZ dateStr.data with
    | some t => .ok t
    | none =>
      match parseLayoutPlusZero dateStr.data with
      | some t => .ok t
      | none =>
        match parseLayoutNumTZ dateStr.data with
        | some t => .ok t
        | none => .error ()

/-- git.go parseTimestamp: time.Parse with the layout "1136239445".  Go reads
that layout as month, month, hour12, literal 6, day, hour12, literal 9,
minute, minute, second (later duplicates overwrite earlier ones, the year
defaults to 0, and a trailing non-empty remainder is an error), so every
git reflog %gt value — a unix-seconds digit string of at most 10 digits,
while the chunks need at least 11 characters — fails to parse. -/
def parseTimestamp (timestampStr : String) : Except Unit Int :=
  let r :=
    (numNF timestampStr.data).bind fun (_, s1) =>
      (numNF s1).bind fun (mo, s2) =>
        (numNF s2).bind fun (_, s3) =>
          (litC '6' s3).bind fun s4 =>
            (numNF s4).bind fun (d, s5) =>
              (numNF s5).bind fun (h12, s6) =>
                (litC '9' s6).bind fun s7 =>
                  (numNF s7).bind fun (_, s8) =>
                    (numNF s8).bind fun (mi, s9) =>
                      (numNF s9).bind fun (sec, s10) =>
                        if s10 = [] && 1 ≤ mo && mo ≤ 12 && 1 ≤ d && d ≤ daysIn mo 0 &&
                            h12 ≤ 12 && mi ≤ 59 && sec ≤ 59 then
                          some (civilToUnix 0 mo d h12 mi sec 0)
                        else none
  match r with
  | some t => .ok t
  | none => .error ()

/-! ### Data model and the git oracle -/

/-- git.go Branch.  time.Time fields are unix seconds; the Go zero Time is
modelled as 0 (it is always overwritten before use). -/
structure Branch where
  Name : String
  CommitDate : Int
  CommitTitle : String
  LastUsed : Int
  IsRemote : Bool
  RelativeTime : String
deriving DecidableEq

/-- One git subprocess invocation, as issued by the sources. -/
inductive GitCmd where
  | revParseAbbrevHead
  | diffCachedQuiet
  | diffQuiet
  | addAll
  | commit (message : String)
  | stashPush (message : String)
  | showRef (branch : String)
  | checkout (branch : String)
  | checkoutNewTrack (branch : String)
deriving DecidableEq

/-- Whether a command mutates the repository (working tree, index, stash or
HEAD) as opposed to a read-only query. -/
def GitCmd.mutates : GitCmd → Bool
  | .addAll => true
  | .commit _ => true
  | .stashPush _ => true
  | .checkout _ => true
  | .checkoutNewTrack _ => true
  | _ => false

/-- The Process Runner oracle: the outcome of every git command the sources
can run against the current repository state.  `Except.ok` carries the raw
stdout (or unit for commands whose output is unused); `Except.error` carries
the Go-rendered error text (for CombinedOutput-style call sites the rendered
output tail is part of that text).  `now` is the value of time.Now() taken
when the current branch is stamped; `fallbackNow` the value taken on a
commit-date parse failure (a later call, unconstrained here). -/
structure GitWorld where
  inRepo : Bool
  configEmail : Except String String
  configName : Except String String
  reflogOutput : Except String String
  revParseAbbrevHead : Except String String
  forEachRefHeads : Except String String
  forEachRefRemotes : Except String String
  mergeBaseCmd : String → String → Except String String
  logAuthorsCmd : String → String → Except String String
  revListRoot : Except String String
  now : Int
  fallbackNow : Int
  stagedDirty : Bool
  unstagedDirty : Bool
  addAllResult : Except String Unit
  commitResult : String → Except String Unit
  stashResult : String → Except String Unit
  showRefLocal : String → Bool
  checkoutResult : String → Except String Unit
  checkoutTrackResult : String → Except String Unit

/-- Association-list lookup modelling a Go map read. -/
def assocGet (m : List (String × Int)) (k : String) : Option Int :=
  (m.find? (fun p => p.1 = k)).map (fun p => p.2)

/-- Association-list write modelling a Go map write. -/
def assocUpd (m : List (String × Int)) (k : String) (v : Int) : List (String × Int) :=
  if m.any (fun p => p.1 = k) then
    m.map (fun p => if p.1 = k then (k, v) else p)
  else
    m ++ [(k, v)]

/-! ### VCS facade (git.go) -/

/-- git.go GetCurrentUser: `git config user.email`, falling back to
`git config user.name`. -/
def GetCurrentUser (w : GitWorld) : Except String String :=
  match w.configEmail with
  | .ok out => .ok (goTrimSpace out)
  | .error _ =>
    match w.configName with
    | .ok out => .ok (goTrimSpace out)
    | .error e => .error e

/-- git.go GetCurrentBranch result as used by call sites that discard the
error: the trimmed `git rev-parse --abbrev-ref HEAD` output, or "" on
failure. -/
def currentBranchOrEmpty (w : GitWorld) : String :=
  match w.revParseAbbrevHead with
  | .ok out => goTrimSpace out
  | .error _ => ""

/-- git.go HasUncommittedChanges: dirty iff either `git diff --cached
--quiet` or `git diff --quiet` exits non-zero; its error result is always
nil. -/
def HasUncommittedChanges (w : GitWorld) : Bool :=
  w.stagedDirty || w.unstagedDirty

/-- The two ref paths GetRecentBranches enumerates. -/
inductive RefPath where
  | heads
  | remotes
deriving DecidableEq

def refPathStr : RefPath → String
  | .heads => "refs/heads/"
  | .remotes => "refs/remotes/"

def refOutput (w : GitWorld) : RefPath → Except String String
  | .heads => w.forEachRefHeads
  | .remotes => w.forEachRefRemotes

/-- One line of `git for-each-ref --format=%(refname:short)|%(committerdate:iso8601)|%(contents:subject)`,
parsed as in git.go getBranchInfo: skip unless it splits into exactly three
parts with a non-empty trimmed name; unparseable commit dates fall back to
time.Now(); refs starting with "origin/" become remote entries displayed
with the " (remote)" suffix. -/
def parseRefLine (w : GitWorld) (line : String) : Option Branch :=
  if line = "" then none
  else
    match goSplitN line "|" 3 with
    | [p0, p1, p2] =>
      let branchName := goTrimSpace p0
      if branchName = "" then none
      else
        let commitDate :=
          match parseGitDate (goTrimSpace p1) with
          | .ok t => t
          | .error _ => w.fallbackNow
        let isRemote := goStartsWith branchName "origin/"
        let displayName :=
          if isRemote then goDropPre branchName "origin/" ++ " (remote)" else branchName
        some { Name := displayName, CommitDate := commitDate,
               CommitTitle := goTrimSpace p2, LastUsed := 0,
               IsRemote := isRemote, RelativeTime := "" }
    | _ => none

/-- git.go getBranchInfo. -/
def getBranchInfo (w : GitWorld) (rp : RefPath) : Except String (List Branch) :=
  match refOutput w rp with
  | .error e => .error ("failed to get git branches for " ++ refPathStr rp ++ ": " ++ e)
  | .ok raw =>
    if goTrimSpace raw = "" then .ok []
    else .ok ((goSplit (goTrimSpace raw) "\n").filterMap (parseRefLine w))

/-- git.go findMergeBase: first of main/master/develop/dev with a successful,
non-empty `git merge-base`; otherwise fall back to the root commit from
`git rev-list --max-parents=0 HEAD`. -/
def tryBases (w : GitWorld) (branchName : String) : List String → Option String
  | [] => none
  | base :: rest =>
    match w.mergeBaseCmd base branchName with
    | .ok out => if goTrimSpace out = "" then tryBases w branchName rest else some (goTrimSpace out)
    | .error _ => tryBases w branchName rest

def findMergeBase (w : GitWorld) (branchName : String) : Except String String :=
  match tryBases w branchName ["main", "master", "develop", "dev"] with
  | some mb => .ok mb
  | none =>
    match w.revListRoot with
    | .error e => .error e
    | .ok out => .ok (goTrimSpace out)

/-- The branch name branchHasAuthorCommits works with: the display name with
the " (remote)" suffix stripped for remote entries. -/
def bhacName (b : Branch) : String :=
  if b.IsRemote then goDropSuf b.Name " (remote)" else b.Name

/-- The ref name branchHasAuthorCommits feeds to git commands:
"origin/<name>" for remote entries. -/
def bhacGitName (b : Branch) : String :=
  if b.IsRemote then "origin/" ++ bhacName b else bhacName b

/-- One `%ae|%an` line matched against the author filters, as in the inner
loop of branchHasAuthorCommits ("mine" compares exactly against the
configured identity; anything else is a case-insensitive substring test on
email and name). -/
def lineMatchesAuthors (line : String) (authors : List String) (currentUser : String) : Bool :=
  if line = "" then false
  else
    match goSplitN line "|" 2 with
    | [p0, p1] =>
      let email := goTrimSpace p0
      let name := goTrimSpace p1
      authors.any (fun author =>
        if author = "mine" then email = currentUser || name = currentUser
        else
          goContains (goToLower email) (goToLower author) ||
          goContains (goToLower name) (goToLower author))
    | _ => false

/-- git.go branchHasAuthorCommits (the final variant, without the debug
printing): main/master always pass; merge-base or log failures fail open
(include); an empty unique-commit log excludes the branch; otherwise the
branch passes iff some unique commit matches some filter.  Mirrors the Go
`(bool, error)` return; note that no path returns a non-nil error. -/
def branchHasAuthorCommits (w : GitWorld) (b : Branch) (authors : List String)
    (currentUser : String) : Bool × Option String :=
  let branchName := bhacName b
  if branchName = "main" || branchName = "master" then (true, none)
  else
    match findMergeBase w (bhacGitName b) with
    | .error _ => (true, none)
    | .ok mergeBase =>
      match w.logAuthorsCmd mergeBase (bhacGitName b) with
      | .error _ => (true, none)
      | .ok out =>
        if goTrimSpace out = "" then (false, none)
        else
          if (goSplit (goTrimSpace out) "\n").any
              (fun line => lineMatchesAuthors line authors currentUser) then
            (true, none)
          else (false, none)

/-- The first variant of branchHasAuthorCommits appearing in git.go (the one
with the DEBUG printing): identical except that a branch with an empty
unique-commit log is INCLUDED ("no unique commits in this branch, but we
will include it anyway").  The final variant above supersedes it; kept here
because the two variants resolve the zero-unique-commits question in
opposite ways. -/
def branchHasAuthorCommitsDbg (w : GitWorld) (b : Branch) (authors : List String)
    (currentUser : String) : Bool × Option String :=
  let branchName := bhacName b
  if branchName = "main" || branchName = "master" then (true, none)
  else
    match findMergeBase w (bhacGitName b) with
    | .error _ => (true, none)
    | .ok mergeBase =>
      match w.logAuthorsCmd mergeBase (bhacGitName b) with
      | .error _ => (true, none)
      | .ok out =>
        if goTrimSpace out = "" then (true, none)
        else
          if (goSplit (goTrimSpace out) "\n").any
              (fun line => lineMatchesAuthors line authors currentUser) then
            (true, none)
          else (false, none)

/-! ### git.go CommitChanges / StashChanges / SwitchToBranch -/

/-- git.go CommitChanges: `git add -A`, then `git commit -m <message>` where
the message is the subject alone when the description trims to empty, and
subject + blank line + description otherwise.  Returns the Go error (if any)
together with the trace of commands issued. -/
def CommitChanges (w : GitWorld) (subject description : String) :
    Option String × List GitCmd :=
  match w.addAllResult with
  | .error e => (some ("failed to stage changes: " ++ e), [.addAll])
  | .ok _ =>
    let message :=
      if goTrimSpace description ≠ "" then subject ++ "\n\n" ++ description else subject
    match w.commitResult message with
    | .error e => (some ("failed to commit changes: " ++ e), [.addAll, .commit message])
    | .ok _ => (none, [.addAll, .commit message])

/-- git.go StashChanges: `git stash push -m "WIP: changes before switching
to <branch>"`. -/
def StashChanges (w : GitWorld) (branchName : String) : Option String × List GitCmd :=
  let stashMessage := "WIP: changes before switching to " ++ branchName
  match w.stashResult stashMessage with
  | .error e => (some ("failed to stash changes: " ++ e), [.stashPush stashMessage])
  | .ok _ => (none, [.stashPush stashMessage])

/-- git.go SwitchToBranch: strip the " (remote)" display suffix; for a
remote entry whose local branch is missing, create a tracking branch from
origin; otherwise a plain checkout.  The oracle error text stands for the
Go-rendered "%v\nOutput: %s" tail. -/
def SwitchToBranch (w : GitWorld) (branchName : String) : Option String × List GitCmd :=
  let isRemote := goEndsWith branchName " (remote)"
  if isRemote then
    let actual := goDropSuf branchName " (remote)"
    if w.showRefLocal actual then
      match w.checkoutResult actual with
      | .ok _ => (none, [.showRef actual, .checkout actual])
      | .error e =>
        (some ("failed to checkout branch " ++ actual ++ ": " ++ e),
         [.showRef actual, .checkout actual])
    else
      match w.checkoutTrackResult actual with
      | .ok _ => (none, [.showRef actual, .checkoutNewTrack actual])
      | .error e =>
        (some ("failed to create and checkout branch " ++ actual ++ ": " ++ e),
         [.showRef actual, .checkoutNewTrack actual])
  else
    match w.checkoutResult branchName with
    | .ok _ => (none, [.checkout branchName])
    | .error e =>
      (some ("failed to checkout branch " ++ branchName ++ ": " ++ e),
       [.checkout branchName])

/-! ### main.go switchToBranch -/

/-- Non-error outcome of the orchestrator switch: either the switch went
through or the commit/stash modal was opened over the dirty working tree. -/
inductive SwitchOutcome where
  | switched
  | modalShown
deriving DecidableEq

/-- main.go (model).switchToBranch, final variant: read the current branch,
reject when the stripped target equals it ("already on branch"), then gate
on uncommitted changes (modal) or switch directly.  Returns the result and
the full command trace. -/
def switchToBranch (w : GitWorld) (branchName : String) :
    Except String SwitchOutcome × List GitCmd :=
  match w.revParseAbbrevHead with
  | .error e => (.error ("failed to get current branch: " ++ e), [.revParseAbbrevHead])
  | .ok out =>
    let currentBranch := goTrimSpace out
    let cleanBranchName := goDropSuf branchName " (remote)"
    if cleanBranchName = currentBranch then
      (.error ("already on branch \x27" ++ currentBranch ++ "\x27"), [.revParseAbbrevHead])
    else
      if HasUncommittedChanges w then
        (.ok .modalShown, [.revParseAbbrevHead, .diffCachedQuiet, .diffQuiet])
      else
        match SwitchToBranch w branchName with
        | (none, cmds) =>
          (.ok .switched, [.revParseAbbrevHead, .diffCachedQuiet, .diffQuiet] ++ cmds)
        | (some e, cmds) =>
          (.error e, [.revParseAbbrevHead, .diffCachedQuiet, .diffQuiet] ++ cmds)

/-- The first switchToBranch variant in main.go, which has no
already-on-branch guard: it goes straight to the dirty check and the
checkout.  Superseded by the guarded variant above. -/
def switchToBranchSimple (w : GitWorld) (branchName : String) :
    Except String SwitchOutcome × List GitCmd :=
  if HasUncommittedChanges w then
    (.ok .modalShown, [.diffCachedQuiet, .diffQuiet])
  else
    match SwitchToBranch w branchName with
    | (none, cmds) => (.ok .switched, [.diffCachedQuiet, .diffQuiet] ++ cmds)
    | (some e, cmds) => (.error e, [.diffCachedQuiet, .diffQuiet] ++ cmds)

/-! ### git.go GetRecentBranches -/

/-- Step 1 of GetRecentBranches: resolve the current user only when the
first author filter is "mine". -/
def currentUserOf (w : GitWorld) (authors : List String) : Except String String :=
  match authors with
  | [] => .ok ""
  | a0 :: _ =>
    if a0 = "mine" then
      match GetCurrentUser w with
      | .ok u => .ok u
      | .error e => .error ("failed to get current user: " ++ e)
    else .ok ""

/-- One reflog line folded into the last-checkout map: lines of the form
gd|gs|gt whose subject contains "checkout: moving from" and " to " record
the trimmed text after the first " to " under the parsed timestamp, keeping
only the latest timestamp per branch.  (parseTimestamp never succeeds on
real %gt output, so in practice every line is skipped.) -/
def reflogFold (acc : List (String × Int)) (line : String) : List (String × Int) :=
  if line = "" then acc
  else
    match goSplitN line "|" 3 with
    | [_, subject, timestampStr] =>
      if goContains subject "checkout: moving from" then
        if goContains subject " to " then
          let targetBranch := goTrimSpace ((goSplit subject " to ").getD 1 "")
          match parseTimestamp timestampStr with
          | .error _ => acc
          | .ok timestamp =>
            match assocGet acc targetBranch with
            | none => assocUpd acc targetBranch timestamp
            | some existing =>
              if existing < timestamp then assocUpd acc targetBranch timestamp else acc
        else acc
      else acc
    | _ => acc

/-- The branchLastUsed map: the reflog fold, then the current branch (when
known and non-empty) stamped to time.Now(). -/
def lastUsedMap (w : GitWorld) (raw : String) : List (String × Int) :=
  let m := (goSplit (goTrimSpace raw) "\n").foldl reflogFold []
  let currentBranch := currentBranchOrEmpty w
  if currentBranch = "" then m else assocUpd m currentBranch w.now

/-- Local branches plus, when requested, remote branches (whose enumeration
failure is silently ignored). -/
def allBranchesOf (w : GitWorld) (includeRemote : Bool) : Except String (List Branch) :=
  match getBranchInfo w .heads with
  | .error e => .error e
  | .ok localBranches =>
    .ok (localBranches ++
      (if includeRemote then (getBranchInfo w .remotes).toOption.getD [] else []))

/-- The caller-side filter step: include a branch when
branchHasAuthorCommits reports an error (fail open) or includes it. -/
def bhacInclude (w : GitWorld) (authors : List String) (currentUser : String)
    (b : Branch) : Bool :=
  match branchHasAuthorCommits w b authors currentUser with
  | (_, some _) => true
  | (shouldInclude, none) => shouldInclude

/-- Author filtering is skipped when authors is empty or starts with
"all". -/
def filterBranches (w : GitWorld) (authors : List String) (currentUser : String)
    (l : List Branch) : List Branch :=
  match authors with
  | [] => l
  | a0 :: _ =>
    if a0 = "all" then l else l.filter (bhacInclude w authors currentUser)

/-- Stamp a branch with its last-used time: the map entry under its name
(suffix-stripped for remote entries), else its own commit date. -/
def setLastUsed (m : List (String × Int)) (b : Branch) : Branch :=
  let branchKey := if b.IsRemote then goDropSuf b.Name " (remote)" else b.Name
  match assocGet m branchKey with
  | some lastUsed => { b with LastUsed := lastUsed }
  | none => { b with LastUsed := b.CommitDate }

/-- Everything GetRecentBranches does before the sort: repository check,
optional current-user lookup, reflog query and parse, current-branch
stamping, branch enumeration, author filtering, last-used stamping.  The
result is the list handed to sort.Slice, in construction order. -/
def branchesBeforeSort (w : GitWorld) (includeRemote : Bool) (authors : List String) :
    Except String (List Branch) :=
  if w.inRepo then
    match currentUserOf w authors with
    | .error e => .error e
    | .ok currentUser =>
      match w.reflogOutput with
      | .error e => .error ("failed to get git reflog: " ++ e)
      | .ok raw =>
        match allBranchesOf w includeRemote with
        | .error e => .error e
        | .ok allBranches =>
          .ok ((filterBranches w authors currentUser allBranches).map
                (setLastUsed (lastUsedMap w raw)))
  else .error "not in a git repository"

/-- Result of a full GetRecentBranches run; `panicked` models a Go run-time
panic. -/
inductive RunOutcome where
  | ok : List Branch → RunOutcome
  | err : String → RunOutcome
  | panicked : RunOutcome
deriving DecidableEq

/-- The final truncation `if len(branches) > count { branches =
branches[:count] }` with Go slice semantics: a negative count inside the
guard makes branches[:count] panic. -/
def goTruncate (l : List Branch) (count : Int) : RunOutcome :=
  if count < (l.length : Int) then
    if count < 0 then .panicked else .ok (l.take count.toNat)
  else .ok l

/-- sort.Slice postcondition for the comparator
`branches[i].LastUsed.After(branches[j].LastUsed)`: every later element's
LastUsed is at most every earlier one's.  sort.Slice promises nothing more —
in particular not stability. -/
def sortedDesc (l : List Branch) : Prop :=
  l.Pairwise (fun a b => b.LastUsed ≤ a.LastUsed)

/-- git.go GetRecentBranches as a relation from the oracle to the possible
outcomes: the pre-sort pipeline, then any reordering satisfying the
sort.Slice contract, then the truncation.  (sort.Slice is not a stable
sort, so the permutation is existentially quantified.) -/
def GetRecentBranches (w : GitWorld) (count : Int) (includeRemote : Bool)
    (authors : List String) (out : RunOutcome) : Prop :=
  match branchesBeforeSort w includeRemote authors with
  | .error e => out = .err e
  | .ok branches => ∃ l, branches.Perm l ∧ sortedDesc l ∧ out = goTruncate l count

/-- main.go: the -n flag value is passed to GetRecentBranches unchecked
(default 10). -/
def flagCount (provided : Option Int) : Int :=
  provided.getD 10

/-! ### Concrete repository states used by the witnesses and counterexamples -/

/-- A small healthy repository oracle: detached HEAD, empty reflog, no
branches, all mutating commands succeed, merge-base/log unavailable.  The
concrete states below override individual fields.  `now` is
2024-01-03 00:00:00 UTC. -/
def baseWorld : GitWorld where
  inRepo := true
  configEmail := .ok "me@example.com\n"
  configName := .ok "Me\n"
  reflogOutput := .ok ""
  revParseAbbrevHead := .ok "HEAD\n"
  forEachRefHeads := .ok ""
  forEachRefRemotes := .ok ""
  mergeBaseCmd := fun _ _ => .error "exit status 1"
  logAuthorsCmd := fun _ _ => .error "exit status 128"
  revListRoot := .error "exit status 128"
  now := 1704240000
  fallbackNow := 1704240000
  stagedDirty := false
  unstagedDirty := false
  addAllResult := .ok ()
  commitResult := fun _ => .ok ()
  stashResult := fun _ => .ok ()
  showRefLocal := fun _ => false
  checkoutResult := fun _ => .ok ()
  checkoutTrackResult := fun _ => .ok ()

/-- Two local branches whose commits carry the same timestamp
(2024-01-01 00:00:00 UTC) and which have no reflog entries: their computed
last-used times tie. -/
def wTie : GitWorld :=
  { baseWorld with
    forEachRefHeads :=
      .ok "feat-a|2024-01-01 00:00:00 +0000|msg a\nfeat-b|2024-01-01 00:00:00 +0000|msg b" }

def brTieA : Branch := ⟨"feat-a", 1704067200, "msg a", 1704067200, false, ""⟩

def brTieB : Branch := ⟨"feat-b", 1704067200, "msg b", 1704067200, false, ""⟩

/-- A local branch "feature" and the remote-tracking "origin/feature" of the
same name, with includeRemote about to be requested. -/
def wC3 : GitWorld :=
  { baseWorld with
    forEachRefHeads := .ok "feature|2024-01-02 00:00:00 +0000|local work",
    forEachRefRemotes := .ok "origin/feature|2024-01-01 00:00:00 +0000|pushed work" }

def brFeatLocal : Branch := ⟨"feature", 1704153600, "local work", 1704153600, false, ""⟩

def brFeatRemote : Branch :=
  ⟨"feature (remote)", 1704067200, "pushed work", 1704067200, true, ""⟩

/-- The checked-out branch is "feat"; it has a merge base with main and zero
commits unique to it, while "main" is also present.  Under the author filter
["alice"] the final branchHasAuthorCommits excludes "feat". -/
def wC4 : GitWorld :=
  { baseWorld with
    revParseAbbrevHead := .ok "feat\n",
    forEachRefHeads := .ok "feat|2024-01-02 00:00:00 +0000|x\nmain|2024-01-01 00:00:00 +0000|y",
    mergeBaseCmd := fun base br =>
      if base = "main" && br = "feat" then .ok "abc123\n" else .error "exit status 1",
    logAuthorsCmd := fun mb br =>
      if mb = "abc123" && br = "feat" then .ok "" else .error "exit status 128" }

def brMainC4 : Branch := ⟨"main", 1704067200, "y", 1704067200, false, ""⟩

/-- The checked-out branch is "main" and it is the only branch; its stamped
last-used time is now (1704240000). -/
def wCur : GitWorld :=
  { baseWorld with
    revParseAbbrevHead := .ok "main\n",
    forEachRefHeads := .ok "main|2024-01-01 00:00:00 +0000|y" }

def brCur : Branch := ⟨"main", 1704067200, "y", 1704240000, false, ""⟩

/-- Two branches under the filter ["alice"]: "extra" has a merge base but
its unique-commit log query fails, so it is included fail-open; "main"
passes as always.  Commit dates are distinct so the sorted order is
forced. -/
def wC6 : GitWorld :=
  { baseWorld with
    revParseAbbrevHead := .ok "HEAD\n",
    forEachRefHeads := .ok "main|2024-01-02 00:00:00 +0000|m\nextra|2024-01-01 00:00:00 +0000|e",
    mergeBaseCmd := fun base br =>
      if base = "main" && br = "extra" then .ok "ffee00\n" else .error "exit status 1",
    logAuthorsCmd := fun _ _ => .error "exit status 128" }

def brMainC6 : Branch := ⟨"main", 1704153600, "m", 1704153600, false, ""⟩

def brExtraC6raw : Branch := ⟨"extra", 1704067200, "e", 0, false, ""⟩

def brExtraC6 : Branch := ⟨"extra", 1704067200, "e", 1704067200, false, ""⟩

/-- A remote listing entry for main. -/
def brMainRemote : Branch := ⟨"main (remote)", 1704067200, "m", 0, true, ""⟩

/-- One branch "feat" with zero unique commits over its merge base with
main, under the filter ["alice"]; used to exercise the exclusion path
end-to-end. -/
def wC2 : GitWorld :=
  { baseWorld with
    forEachRefHeads := .ok "feat|2024-01-01 00:00:00 +0000|x",
    mergeBaseCmd := fun base br =>
      if base = "main" && br = "feat" then .ok "abc123\n" else .error "exit status 1",
    logAuthorsCmd := fun mb br =>
      if mb = "abc123" && br = "feat" then .ok "" else .error "exit status 128" }

def brFeatC2 : Branch := ⟨"feat", 1704067200, "x", 0, false, ""⟩

/-- Not a git repository. -/
def wNoRepo : GitWorld :=
  { baseWorld with inRepo := false }

/-! ### Supporting lemmas -/

theorem setLastUsed_Name (m : List (String × Int)) (b : Branch) :
    (setLastUsed m b).Name = b.Name := by
  cases h : assocGet m (if b.IsRemote then goDropSuf b.Name " (remote)" else b.Name) <;>
    simp [setLastUsed, h]

theorem filterBranches_sublist (w : GitWorld) (authors : List String) (cu : String)
    (l : List Branch) : (filterBranches w authors cu l).Sublist l := by
  unfold filterBranches
  split
  · exact List.Sublist.refl l
  · split
    · exact List.Sublist.refl l
    · exact List.filter_sublist l

theorem mem_filterBranches (w : GitWorld) (authors : List String) (cu : String)
    {l : List Branch} {b : Branch} (hmem : b ∈ l)
    (hinc : bhacInclude w authors cu b = true) :
    b ∈ filterBranches w authors cu l := by
  unfold filterBranches
  split
  · exact hmem
  · split
    · exact hmem
    · exact List.mem_filter.mpr ⟨hmem, hinc⟩

theorem branchesBeforeSort_eq {w : GitWorld} {ir : Bool} {authors : List String}
    {bs : List Branch} (h : branchesBeforeSort w ir authors = Except.ok bs) :
    ∃ cu raw allB, currentUserOf w authors = Except.ok cu ∧
      w.reflogOutput = Except.ok raw ∧ allBranchesOf w ir = Except.ok allB ∧
      bs = (filterBranches w authors cu allB).map (setLastUsed (lastUsedMap w raw)) := by
  unfold branchesBeforeSort at h
  split at h
  · split at h
    · simp at h
    · rename_i cu hcu
      split at h
      · simp at h
      · rename_i raw hraw
        split at h
        · simp at h
        · rename_i allB hall
          injection h with h2
          exact ⟨cu, raw, allB, hcu, hraw, hall, h2.symm⟩
  · simp at h

theorem getRecentBranches_ok {w : GitWorld} {count : Int} {ir : Bool}
    {authors : List String} {out : List Branch}
    (h : GetRecentBranches w count ir authors (.ok out)) :
    ∃ bs l, branchesBeforeSort w ir authors = Except.ok bs ∧ bs.Perm l ∧ sortedDesc l ∧
      RunOutcome.ok out = goTruncate l count := by
  unfold GetRecentBranches at h
  split at h
  · simp at h
  · rename_i bs hbs
    obtain ⟨l, hperm, hsort, hout⟩ := h
    exact ⟨bs, l, hbs, hperm, hsort, hout⟩

theorem goTruncate_ok {l out : List Branch} {count : Int}
    (h : goTruncate l count = RunOutcome.ok out) : out.Sublist l := by
  unfold goTruncate at h
  split at h
  · split at h
    · simp at h
    · injection h with h2
      exact h2 ▸ List.take_sublist _ _
  · injection h with h2
    exact h2 ▸ List.Sublist.refl l

theorem goTruncate_head {l out : List Branch} {count : Int} (hc : 1 ≤ count)
    (h : goTruncate l count = RunOutcome.ok out) : out.head? = l.head? := by
  unfold goTruncate at h
  split at h
  · split at h
    · simp at h
    · injection h with h2
      subst h2
      cases l with
      | nil => simp
      | cons a t =>
        rw [show count.toNat = count.toNat - 1 + 1 by omega]
        simp [List.take_succ_cons]
  · injection h with h2
    rw [h2]

theorem goTruncate_not_panicked {l : List Branch} {count : Int} (hc : 0 ≤ count) :
    goTruncate l count ≠ RunOutcome.panicked := by
  unfold goTruncate
  split
  · split
    · omega
    · simp
  · simp

theorem head_of_sorted_perm {bs l : List Branch} {b : Branch}
    (hperm : bs.Perm l) (hsort : sortedDesc l) (hmem : b ∈ bs)
    (hmax : ∀ y ∈ bs, y ≠ b → y.LastUsed < b.LastUsed) : l.head? = some b := by
  cases l with
  | nil =>
    have hlen := hperm.length_eq
    simp at hlen
    rw [hlen] at hmem
    simp at hmem
  | cons a t =>
    by_cases hab : a = b
    · simp [hab]
    · exfalso
      have hbmem : b ∈ a :: t := hperm.subset hmem
      have hamem : a ∈ bs := hperm.symm.subset (List.mem_cons_self a t)
      have hlt : a.LastUsed < b.LastUsed := hmax a hamem hab
      rcases List.mem_cons.mp hbmem with h1 | h2
      · exact hab h1.symm
      · have hle : b.LastUsed ≤ a.LastUsed := (List.pairwise_cons.mp hsort).1 b h2
        omega

/-! ### C2 -/

/-- C2: with an active author filter (non-empty authors not starting with
"all"), a branch other than main/master whose merge-base lookup succeeds and
whose unique-commit log succeeds with empty output is excluded by
branchHasAuthorCommits and hence absent (by name) from every successful
GetRecentBranches result, provided its display name identifies it uniquely
among the enumerated branches. -/
theorem zero_unique_commits_branch_excluded
    (w : GitWorld) (b : Branch) (a0 : String) (rest : List String)
    (cu mb logOut : String) (count : Int) (ir : Bool) (out : List Branch)
    (ha : a0 ≠ "all")
    (hnm : bhacName b ≠ "main") (hnm2 : bhacName b ≠ "master")
    (hmb : findMergeBase w (bhacGitName b) = .ok mb)
    (hlog : w.logAuthorsCmd mb (bhacGitName b) = .ok logOut)
    (hempty : goTrimSpace logOut = "")
    (hcu : currentUserOf w (a0 :: rest) = .ok cu)
    (huniq : ∀ allB, allBranchesOf w ir = .ok allB → ∀ y ∈ allB, y.Name = b.Name → y = b)
    (hrel : GetRecentBranches w count ir (a0 :: rest) (.ok out)) :
    branchHasAuthorCommits w b (a0 :: rest) cu = (false, none) ∧
    ∀ x ∈ out, x.Name ≠ b.Name := by
  have hbhac : branchHasAuthorCommits w b (a0 :: rest) cu = (false, none) := by
    simp [branchHasAuthorCommits, hnm, hnm2, hmb, hlog, hempty]
  refine ⟨hbhac, ?_⟩
  intro x hx hxname
  obtain ⟨bs, l, hbs, hperm, hsort, hout⟩ := getRecentBranches_ok hrel
  obtain ⟨cu2, raw, allB, hcu2, hraw, hall, hbsEq⟩ := branchesBeforeSort_eq hbs
  have hcueq : cu2 = cu := by
    rw [hcu] at hcu2
    injection hcu2 with h
    exact h.symm
  rw [hcueq] at hbsEq
  have hxl : x ∈ l := (goTruncate_ok hout.symm).subset hx
  have hxbs : x ∈ bs := (hperm.mem_iff).mpr hxl
  rw [hbsEq] at hxbs
  obtain ⟨y, hyf, hyx⟩ := List.mem_map.mp hxbs
  have hyall : y ∈ allB := (filterBranches_sublist w (a0 :: rest) cu allB).subset hyf
  have hyname : y.Name = b.Name := by
    rw [← hxname, ← hyx, setLastUsed_Name]
  have hyb : y = b := huniq allB hall y hyall hyname
  subst hyb
  have hfilter : filterBranches w (a0 :: rest) cu allB =
      allB.filter (bhacInclude w (a0 :: rest) cu) := by
    simp only [filterBranches]
    rw [if_neg ha]
  rw [hfilter] at hyf
  have hinc : bhacInclude w (a0 :: rest) cu y = true := (List.mem_filter.mp hyf).2
  rw [show bhacInclude w (a0 :: rest) cu y = false by simp [bhacInclude, hbhac]] at hinc
  exact Bool.false_ne_true hinc

/-- Witness for C2: on the concrete state wC2 with the filter ["alice"],
the branch "feat" (zero unique commits over its merge base with main) is
reported excluded, and the concrete successful outcome — the empty listing —
indeed does not mention "feat". -/
theorem zero_unique_commits_branch_excluded_witness :
    branchHasAuthorCommits wC2 brFeatC2 ["alice"] "" = (false, none) ∧
    ∀ x ∈ ([] : List Branch), x.Name ≠ brFeatC2.Name := by
  have hrel : GetRecentBranches wC2 10 false ["alice"] (.ok []) := by
    have hstage : branchesBeforeSort wC2 false ["alice"] = .ok [] := rfl
    unfold GetRecentBranches
    rw [hstage]
    exact ⟨[], List.Perm.refl _, by simp [sortedDesc], rfl⟩
  exact zero_unique_commits_branch_excluded wC2 brFeatC2 "alice" [] "" "abc123" "" 10 false []
    (by decide) (by decide) (by decide) rfl rfl rfl rfl
    (by intro allB hall y hy hname
        have h2 : allBranchesOf wC2 false = .ok [brFeatC2] := rfl
        rw [h2] at hall
        injection hall with h3
        rw [← h3] at hy
        simpa using hy)
    hrel

/-! ### C3 -/

/-- Counterexample for C3: on wC3 with includeRemote, the local branch
"feature" does NOT shadow the remote-tracking "origin/feature": the stage
handed to the sort lists both the local entry and the remote entry (under
the display name with the " (remote)" suffix), and a successful call returns
both.  No shadowing logic exists in GetRecentBranches. -/
theorem remote_branch_not_shadowed_counterexample :
    branchesBeforeSort wC3 true ["all"] = .ok [brFeatLocal, brFeatRemote] ∧
    brFeatLocal.Name = "feature" ∧ brFeatRemote.Name = "feature (remote)" ∧
    brFeatRemote.IsRemote = true ∧
    GetRecentBranches wC3 10 true ["all"] (.ok [brFeatLocal, brFeatRemote]) := by
  refine ⟨rfl, rfl, rfl, rfl, ?_⟩
  have hstage : branchesBeforeSort wC3 true ["all"] = .ok [brFeatLocal, brFeatRemote] := rfl
  unfold GetRecentBranches
  rw [hstage]
  exact ⟨[brFeatLocal, brFeatRemote], List.Perm.refl _,
    by simp [sortedDesc, brFeatLocal, brFeatRemote], rfl⟩

/-- C3 (amended): whenever the enumerated local-plus-remote candidates carry
pairwise-distinct display names, every successful GetRecentBranches result
lists pairwise-distinct names — but an identically named remote branch is an
additional entry under its suffixed display name, not a shadowed one. -/
theorem listing_names_nodup
    (w : GitWorld) (count : Int) (ir : Bool) (authors : List String)
    (allB : List Branch) (out : List Branch)
    (hall : allBranchesOf w ir = .ok allB)
    (hnd : (allB.map Branch.Name).Nodup)
    (hrel : GetRecentBranches w count ir authors (.ok out)) :
    (out.map Branch.Name).Nodup := by
  obtain ⟨bs, l, hbs, hperm, hsort, hout⟩ := getRecentBranches_ok hrel
  obtain ⟨cu, raw, allB2, hcu, hraw, hall2, hbsEq⟩ := branchesBeforeSort_eq hbs
  have hallEq : allB2 = allB := by
    rw [hall] at hall2
    injection hall2 with h
    exact h.symm
  rw [hallEq] at hbsEq
  have hnames : bs.map Branch.Name = (filterBranches w authors cu allB).map Branch.Name := by
    rw [hbsEq, List.map_map]
    exact List.map_congr_left (fun b _ => setLastUsed_Name (lastUsedMap w raw) b)
  have hndbs : (bs.map Branch.Name).Nodup := by
    rw [hnames]
    exact hnd.sublist ((filterBranches_sublist w authors cu allB).map Branch.Name)
  have hndl : (l.map Branch.Name).Nodup := ((hperm.map Branch.Name).nodup_iff).mp hndbs
  exact hndl.sublist ((goTruncate_ok hout.symm).map Branch.Name)

/-- Witness for C3 (amended): the wC3 candidates have distinct display
names, and the concrete successful outcome keeps them distinct. -/
theorem listing_names_nodup_witness :
    (([brFeatLocal, brFeatRemote].map Branch.Name).Nodup) := by
  have hrel : GetRecentBranches wC3 10 true ["all"] (.ok [brFeatLocal, brFeatRemote]) := by
    have hstage : branchesBeforeSort wC3 true ["all"] = .ok [brFeatLocal, brFeatRemote] := rfl
    unfold GetRecentBranches
    rw [hstage]
    exact ⟨[brFeatLocal, brFeatRemote], List.Perm.refl _,
      by simp [sortedDesc, brFeatLocal, brFeatRemote], rfl⟩
  exact listing_names_nodup wC3 10 true ["all"]
    [⟨"feature", 1704153600, "local work", 0, false, ""⟩,
     ⟨"feature (remote)", 1704067200, "pushed work", 0, true, ""⟩]
    [brFeatLocal, brFeatRemote] rfl (by decide) hrel

/-! ### C4 -/

/-- Counterexample for C4: on wC4 the checked-out branch is "feat", yet
under the author filter ["alice"] it is excluded (zero unique commits, final
branchHasAuthorCommits variant), so a successful call with limit 10 returns
a list whose first — and only — element is "main", not the current branch;
the current branch is absent altogether. -/
theorem current_branch_filtered_out_counterexample :
    currentBranchOrEmpty wC4 = "feat" ∧
    branchesBeforeSort wC4 false ["alice"] = .ok [brMainC4] ∧
    GetRecentBranches wC4 10 false ["alice"] (.ok [brMainC4]) ∧
    brMainC4.Name ≠ "feat" := by
  refine ⟨rfl, rfl, ?_, by decide⟩
  have hstage : branchesBeforeSort wC4 false ["alice"] = .ok [brMainC4] := rfl
  unfold GetRecentBranches
  rw [hstage]
  exact ⟨[brMainC4], List.Perm.refl _, by simp [sortedDesc], rfl⟩

/-- C4 (amended): when the currently checked-out branch survives the
pipeline into the pre-sort stage and its stamped last-used time strictly
exceeds that of every other staged candidate, every successful call with
limit at least 1 returns it as the first element. -/
theorem current_branch_first
    (w : GitWorld) (count : Int) (ir : Bool) (authors : List String)
    (bs : List Branch) (b : Branch) (out : RunOutcome)
    (hstage : branchesBeforeSort w ir authors = .ok bs)
    (hmem : b ∈ bs)
    (_hname : b.Name = currentBranchOrEmpty w)
    (hmax : ∀ y ∈ bs, y ≠ b → y.LastUsed < b.LastUsed)
    (hcount : 1 ≤ count)
    (hrel : GetRecentBranches w count ir authors out) :
    ∃ l, out = .ok l ∧ l.head? = some b := by
  unfold GetRecentBranches at hrel
  rw [hstage] at hrel
  obtain ⟨l, hperm, hsort, hout⟩ := hrel
  have hhead : l.head? = some b := head_of_sorted_perm hperm hsort hmem hmax
  cases htr : goTruncate l count with
  | ok res =>
    refine ⟨res, by rw [hout, htr], ?_⟩
    rw [goTruncate_head hcount htr, hhead]
  | err e =>
    exfalso
    unfold goTruncate at htr
    split at htr
    · split at htr <;> simp at htr
    · simp at htr
  | panicked =>
    exact absurd htr (goTruncate_not_panicked (by omega))

/-- Witness for C4 (amended): on wCur the current branch "main" is staged
with last-used time 1704240000 (now) and is the head of the successful
outcome. -/
theorem current_branch_first_witness :
    (brCur ∈ [brCur] ∧ brCur.Name = currentBranchOrEmpty wCur) ∧
    ∃ l, RunOutcome.ok [brCur] = RunOutcome.ok l ∧ l.head? = some brCur := by
  have hrel : GetRecentBranches wCur 10 false ["all"] (.ok [brCur]) := by
    have hstage : branchesBeforeSort wCur false ["all"] = .ok [brCur] := rfl
    unfold GetRecentBranches
    rw [hstage]
    exact ⟨[brCur], List.Perm.refl _, by simp [sortedDesc], rfl⟩
  refine ⟨⟨by simp, rfl⟩, ?_⟩
  exact current_branch_first wCur 10 false ["all"] [brCur] brCur (.ok [brCur]) rfl
    (by simp) rfl
    (by intro y hy hne
        simp at hy
        exact absurd hy hne)
    (by omega) hrel

/-! ### C5 -/

/-- C5: when the current-branch query succeeds and the requested target,
with the " (remote)" display suffix stripped, equals the current branch,
switchToBranch rejects the request with the app-constructed "already on
branch" error after issuing only the read-only rev-parse query — no
checkout, commit or stash command is issued. -/
theorem already_on_branch_guard
    (w : GitWorld) (target outRev : String)
    (hrev : w.revParseAbbrevHead = .ok outRev)
    (heq : goDropSuf target " (remote)" = goTrimSpace outRev) :
    switchToBranch w target =
      (.error ("already on branch \x27" ++ goTrimSpace outRev ++ "\x27"),
       [GitCmd.revParseAbbrevHead]) ∧
    ([GitCmd.revParseAbbrevHead].filter GitCmd.mutates) = [] := by
  constructor
  · unfold switchToBranch
    rw [hrev]
    simp [heq]
  · rfl

/-- Witness for C5: switching to "main (remote)" while on "main". -/
theorem already_on_branch_guard_witness :
    switchToBranch wCur "main (remote)" =
      (.error ("already on branch \x27main\x27"), [GitCmd.revParseAbbrevHead]) ∧
    ([GitCmd.revParseAbbrevHead].filter GitCmd.mutates) = [] := by
  have h := already_on_branch_guard wCur "main (remote)" "main\n" rfl (by decide)
  simpa using h

/-! ### C6 -/
theorem branchHasAuthorCommits_no_error (w : GitWorld) (b : Branch)
    (authors : List String) (cu : String) :
    (branchHasAuthorCommits w b authors cu).2 = none := by
  simp only [branchHasAuthorCommits]
  split
  · rfl
  · split
    · rfl
    · split
      · rfl
      · split
        · rfl
        · split <;> rfl

/-- C6: when the merge-base lookup fails, or it succeeds and the
unique-commit log query fails, branchHasAuthorCommits reports the branch
included with a nil error; consequently the branch survives the filter stage
and — whenever the staged candidates fit within the limit — appears in the
successful result.  Moreover branchHasAuthorCommits never returns a non-nil
error on any input, so no per-branch failure can propagate out of
GetRecentBranches. -/
theorem author_filter_fail_open
    (w : GitWorld) (b : Branch) (authors : List String) (cu raw : String)
    (count : Int) (ir : Bool) (allB bs out : List Branch)
    (hfail : (∃ e, findMergeBase w (bhacGitName b) = .error e) ∨
             (∃ mb e, findMergeBase w (bhacGitName b) = .ok mb ∧
                      w.logAuthorsCmd mb (bhacGitName b) = .error e))
    (hcu : currentUserOf w authors = .ok cu)
    (hraw : w.reflogOutput = .ok raw)
    (hall : allBranchesOf w ir = .ok allB)
    (hmem : b ∈ allB)
    (hstage : branchesBeforeSort w ir authors = .ok bs)
    (hfit : (bs.length : Int) ≤ count)
    (hrel : GetRecentBranches w count ir authors (.ok out)) :
    branchHasAuthorCommits w b authors cu = (true, none) ∧
    setLastUsed (lastUsedMap w raw) b ∈ out ∧
    ∀ b2 a2 u2, (branchHasAuthorCommits w b2 a2 u2).2 = none := by
  have hbhac : branchHasAuthorCommits w b authors cu = (true, none) := by
    rcases hfail with ⟨e, hmbe⟩ | ⟨mb, e, hmb, hloge⟩
    · by_cases hm : bhacName b = "main" ∨ bhacName b = "master"
      · rcases hm with h | h <;> simp [branchHasAuthorCommits, h]
      · push_neg at hm
        simp [branchHasAuthorCommits, hm.1, hm.2, hmbe]
    · by_cases hm : bhacName b = "main" ∨ bhacName b = "master"
      · rcases hm with h | h <;> simp [branchHasAuthorCommits, h]
      · push_neg at hm
        simp [branchHasAuthorCommits, hm.1, hm.2, hmb, hloge]
  refine ⟨hbhac, ?_, ?_⟩
  · obtain ⟨bs2, l, hbs2, hperm, hsort, hout⟩ := getRecentBranches_ok hrel
    have hbseq : bs2 = bs := by
      rw [hstage] at hbs2
      injection hbs2 with h
      exact h.symm
    subst hbseq
    obtain ⟨cu2, raw2, allB2, hcu2, hraw2, hall2, hbsEq⟩ := branchesBeforeSort_eq hbs2
    have hcueq : cu2 = cu := by
      rw [hcu] at hcu2
      injection hcu2 with h
      exact h.symm
    have hraweq : raw2 = raw := by
      rw [hraw] at hraw2
      injection hraw2 with h
      exact h.symm
    have hallEq : allB2 = allB := by
      rw [hall] at hall2
      injection hall2 with h
      exact h.symm
    rw [hcueq, hraweq, hallEq] at hbsEq
    have hinc : bhacInclude w authors cu b = true := by
      simp [bhacInclude, hbhac]
    have hbf : b ∈ filterBranches w authors cu allB :=
      mem_filterBranches w authors cu hmem hinc
    have hbbs : setLastUsed (lastUsedMap w raw) b ∈ bs2 := by
      rw [hbsEq]
      exact List.mem_map_of_mem _ hbf
    have hbl : setLastUsed (lastUsedMap w raw) b ∈ l := (hperm.mem_iff).mp hbbs
    have hlout : out = l := by
      unfold goTruncate at hout
      rw [if_neg (by
        have hlen : l.length = bs2.length := hperm.length_eq.symm
        rw [hlen]
        omega)] at hout
      injection hout with h
    rw [hlout]
    exact hbl
  · intro b2 a2 u2
    exact branchHasAuthorCommits_no_error w b2 a2 u2

/-- Witness for C6: on wC6 the branch "extra" has a merge base but a
failing log query; it is included fail-open and appears in the successful
outcome [main, extra]. -/
theorem author_filter_fail_open_witness :
    branchHasAuthorCommits wC6 brExtraC6raw ["alice"] "" = (true, none) ∧
    setLastUsed (lastUsedMap wC6 "") brExtraC6raw ∈ [brMainC6, brExtraC6] ∧
    ∀ b2 a2 u2, (branchHasAuthorCommits wC6 b2 a2 u2).2 = none := by
  have hrel : GetRecentBranches wC6 10 false ["alice"] (.ok [brMainC6, brExtraC6]) := by
    have hstage : branchesBeforeSort wC6 false ["alice"] = .ok [brMainC6, brExtraC6] := rfl
    unfold GetRecentBranches
    rw [hstage]
    exact ⟨[brMainC6, brExtraC6], List.Perm.refl _,
      by simp [sortedDesc, brMainC6, brExtraC6], rfl⟩
  exact author_filter_fail_open wC6 brExtraC6raw ["alice"] "" "" 10 false
    [⟨"main", 1704153600, "m", 0, false, ""⟩, brExtraC6raw] [brMainC6, brExtraC6]
    [brMainC6, brExtraC6]
    (Or.inr ⟨"ffee00", "exit status 128", rfl, rfl⟩)
    rfl rfl rfl (by simp) rfl (by norm_num) hrel

/-! ### C7 -/

/-- Counterexample for C7: CommitChanges treats a whitespace-only body as
empty: subject "x" with the non-empty body " " commits with message exactly
"x", not subject + blank line + body as the claim requires for every
non-empty body. -/
theorem commit_message_whitespace_body_counterexample :
    (CommitChanges baseWorld "x" " ").2 = [GitCmd.addAll, GitCmd.commit "x"] ∧
    "x" ≠ "x" ++ "\n\n" ++ " " := by
  exact ⟨rfl, by decide⟩

/-- C7 (amended): after successful staging of all changes (git add -A
first), the commit command carries exactly the subject when the body trims
to empty — in particular subject "x" with empty body commits as exactly
"x" — and subject + blank line + body when the body is non-empty after
trimming. -/
theorem commit_message_format (w : GitWorld) (subject description : String)
    (hadd : w.addAllResult = .ok ()) :
    (CommitChanges w subject description).2 =
      [GitCmd.addAll,
       GitCmd.commit (if goTrimSpace description ≠ "" then subject ++ "\n\n" ++ description
                      else subject)] := by
  simp only [CommitChanges, hadd]
  split <;> rfl

/-- Witness for C7 (amended): subject "x" with empty body stages then
commits with message exactly "x". -/
theorem commit_message_format_witness :
    (CommitChanges baseWorld "x" "").2 = [GitCmd.addAll, GitCmd.commit "x"] := by
  exact (commit_message_format baseWorld "x" "" rfl).trans (by decide)

/-! ### C8 -/

/-- Counterexample for C8: with limit 0 the call still fails when not run
inside a repository — the repository check precedes the truncation, so
limit 0 does not make the call error-free: the only outcome on wNoRepo is
the error, never the empty list. -/
theorem limit_zero_can_error_counterexample :
    GetRecentBranches wNoRepo 0 false ["all"] (.err "not in a git repository") ∧
    ¬ GetRecentBranches wNoRepo 0 false ["all"] (.ok []) := by
  constructor
  · exact rfl
  · intro h
    exact RunOutcome.noConfusion h

/-- C8 (amended): whenever the pre-sort pipeline succeeds (in a repository,
current-user lookup when required, reflog query and local-branch enumeration
all succeed), a call with limit 0 returns exactly the empty list; the
repository-level failures still surface as errors regardless of the
limit. -/
theorem limit_zero_empty_on_success
    (w : GitWorld) (ir : Bool) (authors : List String) (bs : List Branch)
    (out : RunOutcome)
    (hstage : branchesBeforeSort w ir authors = .ok bs)
    (hrel : GetRecentBranches w 0 ir authors out) :
    out = .ok [] := by
  unfold GetRecentBranches at hrel
  rw [hstage] at hrel
  obtain ⟨l, hperm, hsort, hout⟩ := hrel
  cases l with
  | nil => simpa [goTruncate] using hout
  | cons a t => simpa [goTruncate] using hout

/-- Witness for C8 (amended): on wTie (two branches) a limit-0 call can
only produce the empty list. -/
theorem limit_zero_empty_on_success_witness :
    RunOutcome.ok [] = RunOutcome.ok ([] : List Branch) ∧
    branchesBeforeSort wTie false ["all"] = .ok [brTieA, brTieB] := by
  have hrel : GetRecentBranches wTie 0 false ["all"] (.ok []) := by
    have hstage : branchesBeforeSort wTie false ["all"] = .ok [brTieA, brTieB] := rfl
    unfold GetRecentBranches
    rw [hstage]
    exact ⟨[brTieA, brTieB], List.Perm.refl _,
      by simp [sortedDesc, brTieA, brTieB], rfl⟩
  have h := limit_zero_empty_on_success wTie false ["all"] [brTieA, brTieB] (.ok []) rfl hrel
  exact ⟨h, rfl⟩

/-! ### C9 and C10 -/

/-- C9: a branch whose filter name (display name with the remote suffix
stripped) is main or master always passes branchHasAuthorCommits with a nil
error, for every oracle, author list and configured user, and therefore is
never removed from a listing by the author-filtering stage. -/
theorem main_master_always_pass_filter
    (w : GitWorld) (b : Branch) (authors : List String) (cu : String)
    (hmm : bhacName b = "main" ∨ bhacName b = "master") :
    branchHasAuthorCommits w b authors cu = (true, none) ∧
    ∀ l, b ∈ l → b ∈ filterBranches w authors cu l := by
  have hbhac : branchHasAuthorCommits w b authors cu = (true, none) := by
    rcases hmm with h | h <;> simp [branchHasAuthorCommits, h]
  refine ⟨hbhac, ?_⟩
  intro l hl
  exact mem_filterBranches w authors cu hl (by simp [bhacInclude, hbhac])

/-- Witness for C9: the remote-display entry "main (remote)" passes the
filter ["alice"] and survives the filtering stage. -/
theorem main_master_always_pass_filter_witness :
    branchHasAuthorCommits baseWorld brMainRemote ["alice"] "" = (true, none) ∧
    brMainRemote ∈ filterBranches baseWorld ["alice"] "" [brMainRemote] := by
  have h := main_master_always_pass_filter baseWorld brMainRemote ["alice"] ""
    (Or.inl (by decide))
  exact ⟨h.1, h.2 [brMainRemote] (by simp)⟩

/-- C10: whenever the pipeline reaches the truncation step (no earlier
error) with a negative count, len(branches) > count necessarily holds, the
slice expression branches[:count] has a negative bound and the function
panics; and the -n flag value reaches GetRecentBranches unchecked, so the
spec precondition limit at least 0 is not enforced by the CLI. -/
theorem negative_count_panics
    (w : GitWorld) (count : Int) (ir : Bool) (authors : List String)
    (bs : List Branch)
    (hneg : count < 0)
    (hstage : branchesBeforeSort w ir authors = .ok bs) :
    count < (bs.length : Int) ∧
    (∀ out, GetRecentBranches w count ir authors out → out = .panicked) ∧
    flagCount (some count) = count := by
  refine ⟨by omega, ?_, rfl⟩
  intro out h
  unfold GetRecentBranches at h
  rw [hstage] at h
  obtain ⟨l, hperm, hsort, hout⟩ := h
  have hlen : l.length = bs.length := hperm.length_eq.symm
  unfold goTruncate at hout
  rw [if_pos (by omega), if_pos hneg] at hout
  exact hout

/-- Witness for C10: on wTie a call with count -1 panics. -/
theorem negative_count_panics_witness :
    (-1 : Int) < ([brTieA, brTieB].length : Int) ∧
    (∀ out, GetRecentBranches wTie (-1) false ["all"] out → out = .panicked) ∧
    flagCount (some (-1)) = -1 := by
  exact negative_count_panics wTie (-1) false ["all"] [brTieA, brTieB] (by omega) rfl

/-! ### C1 -/

/-- C1: the claim asserts that ties in last-used time keep their input
order (a stable sort).  GetRecentBranches sorts with Go sort.Slice, whose
contract does not promise stability; on the concrete state wTie, with the
two tied branches enumerated as feat-a then feat-b, both the preserved and
the reversed order are admissible outcomes of the call, so tie order is not
specified — the claimed stability does not hold of the code. -/
theorem recent_branches_tie_order_unspecified :
    GetRecentBranches wTie 10 false ["all"] (.ok [brTieA, brTieB]) ∧
    GetRecentBranches wTie 10 false ["all"] (.ok [brTieB, brTieA]) := by
  have hstage : branchesBeforeSort wTie false ["all"] = .ok [brTieA, brTieB] := rfl
  constructor
  · unfold GetRecentBranches
    rw [hstage]
    exact ⟨[brTieA, brTieB], List.Perm.refl _, by simp [sortedDesc, brTieA, brTieB], rfl⟩
  · unfold GetRecentBranches
    rw [hstage]
    exact ⟨[brTieB, brTieA], List.Perm.swap _ _ _, by simp [sortedDesc, brTieA, brTieB], rfl⟩
